import Mathlib

set_option maxHeartbeats 1000000

/- Verification development for the tweet-catcher pipeline (src/tweetcatcher.py).
The embedding models the Python string operations the link parser uses
(str.split, substring tests) over List Char, a small JSON value type with
Python dict/`in`/`.get`/indexing semantics (including the exceptions raised on
non-dict values, which the source catches), the metadata resolver, the event
classifier, and the dedup/allow-list gate of process_token as an explicit state
transition emitting a trace of ledger/sink effects. -/

namespace TweetCatcher

/-- Python substring / occurrence test: `sep in s` for strings, scanning every
suffix for sep as a prefix. -/
def containsSeq (sep : List Char) : List Char → Bool
  | [] => sep.isPrefixOf []
  | c :: rest => sep.isPrefixOf (c :: rest) || containsSeq sep rest

/-- Worker for Python str.split: scans left to right, cutting at each
non-overlapping occurrence of sep. Fuel (at least the length of the input, as
supplied by splitPy) makes the recursion structural so terms reduce in the
kernel. -/
def splitAuxF (sep : List Char) : Nat → List Char → List Char → List (List Char)
  | _, [], acc => [acc.reverse]
  | 0, s, acc => [acc.reverse ++ s]
  | fuel + 1, c :: rest, acc =>
    if sep.isPrefixOf (c :: rest) then
      acc.reverse :: splitAuxF sep fuel (rest.drop (sep.length - 1)) []
    else
      splitAuxF sep fuel rest (c :: acc)

/-- Python s.split(sep) for a non-empty separator. -/
def splitPy (sep s : List Char) : List (List Char) :=
  splitAuxF sep s.length s []

def xcomHost : List Char := "x.com".data

def twitterHost : List Char := "twitter.com".data

def statusSep : List Char := "/status/".data

def hashSep : List Char := ['#']

/-- The character filter used on the account segment: keep alphanumerics and
underscore (the source uses Python str.isalnum; ASCII inputs are modelled). -/
def cleanChar (c : Char) : Bool := c.isAlphanum || c = '_'

/-- parts[i+1].lower() followed by dropping every character that is not
alphanumeric or underscore. -/
def cleanAccount (s : List Char) : List Char :=
  (s.map Char.toLower).filter cleanChar

/-- The scan loop of extract_account_name: the first path segment equal to a
known host that still has a following segment yields that next segment,
cleaned; a match on the final segment is skipped (i + 1 < len(parts) fails). -/
def findAccount : List (List Char) → Option (List Char)
  | p :: next :: rest =>
    if p = xcomHost ∨ p = twitterHost then some (cleanAccount next)
    else findAccount (next :: rest)
  | _ => none

/-- extract_account_name: cut at the first #, then at the first /status/, split
the remainder on / and scan for a known host segment. The internal try/except
never fires on string input (all operations are total), so the embedding is a
total function. -/
def extract_account_name (twitter_link : List Char) : Option (List Char) :=
  let link1 :=
    if containsSeq hashSep twitter_link then (splitPy hashSep twitter_link).headD []
    else twitter_link
  let link2 :=
    if containsSeq statusSep link1 then (splitPy statusSep link1).headD []
    else link1
  findAccount (splitPy ['/'] link2)

/-- extract_tweet_id: when /status/ occurs, take the segment after its first
occurrence and strip everything from the first # and the first ?; otherwise
None. The [1] index never faults because an occurrence guarantees at least two
split parts. -/
def extract_tweet_id (twitter_link : List Char) : Option (List Char) :=
  if containsSeq statusSep twitter_link then
    some ((splitPy ['?']
      ((splitPy hashSep ((splitPy statusSep twitter_link).getD 1 [])).headD [])).headD [])
  else none

/-- JSON values as decoded by json.loads. -/
inductive Json where
  | null
  | bool (b : Bool)
  | num (n : Int)
  | str (s : String)
  | arr (xs : List Json)
  | obj (fields : List (String × Json))

/-- Python == between a decoded JSON value and a string literal: only equal
strings compare equal. -/
def Json.eqStr : Json → String → Bool
  | .str s, t => s == t
  | _, _ => false

/-- First-match association lookup (dict keys are unique, so this is dict
lookup). -/
def lookupField : List (String × Json) → String → Option Json
  | [], _ => none
  | (k, v) :: rest, key => if k = key then some v else lookupField rest key

/-- Python `key in v`: key test on dicts, substring test on strings, element
equality test on lists (only string elements can equal a string key); a
TypeError on any other value, modelled as an error. -/
def pyContains : Json → String → Except Unit Bool
  | .obj fields, key => .ok (lookupField fields key).isSome
  | .str s, key => .ok (containsSeq key.data s.data)
  | .arr xs, key => .ok (xs.any (fun j => j.eqStr key))
  | _, _ => .error ()

/-- Python v[key] with a string key: dict lookup (KeyError when absent),
TypeError on everything else. -/
def pyIndexStr : Json → String → Except Unit Json
  | .obj fields, key =>
    match lookupField fields key with
    | some v => .ok v
    | none => .error ()
  | _, _ => .error ()

/-- Python v.get(key, default): only dicts have .get (AttributeError
otherwise); a key present with value null still returns null, not the
default. -/
def pyGetD : Json → String → Json → Except Unit Json
  | .obj fields, key, dflt => .ok ((lookupField fields key).getD dflt)
  | _, _, _ => .error ()

/-- Python truthiness of a decoded JSON value. -/
def jsonFalsy : Json → Bool
  | .null => true
  | .bool b => !b
  | .num n => n == 0
  | .str s => s == ""
  | .arr xs => xs.isEmpty
  | .obj fields => fields.isEmpty

/-- The links dict built by get_token_links. -/
structure LinkBundle where
  twitter : Json
  website : Json
  telegram : Json

/-- The "unavailable" sentinel ('Non disponible'). -/
def unavailable : Json := Json.str "Non disponible"

def defaultLinks : LinkBundle := ⟨unavailable, unavailable, unavailable⟩

/-- Outcome of the bounded-timeout HTTP fetch issued by get_token_links: a
timeout, another transport error, or a response carrying a status code and a
body whose JSON decoding may itself fail. -/
inductive FetchResult where
  | timeout
  | transportError
  | response (status : Nat) (body : Except Unit Json)

/-- The two update passes of get_token_links over decoded metadata: first the
nested properties.links object (guarded by `'properties' in metadata and
'links' in metadata['properties']`), then the top-level twitter|twitter_link,
website|website_link, telegram|telegram_link keys; inner .get defaults are
evaluated first, and each pass reads the previous pass's values before
writing. An error here corresponds to a Python exception, which the source
catches while the links dict still holds its defaults (any raising operation
happens before the first successful update when it can happen at all). -/
def buildLinks (metadata : Json) : Except Unit LinkBundle := do
  let links0 := defaultLinks
  let c1 ← pyContains metadata "properties"
  let links1 ←
    if c1 then do
      let props ← pyIndexStr metadata "properties"
      let c2 ← pyContains props "links"
      if c2 then do
        let linksData ← pyIndexStr props "links"
        let t ← pyGetD linksData "twitter" links0.twitter
        let w ← pyGetD linksData "website" links0.website
        let g ← pyGetD linksData "telegram" links0.telegram
        pure (LinkBundle.mk t w g)
      else pure links0
    else pure links0
  let tl ← pyGetD metadata "twitter_link" links1.twitter
  let t2 ← pyGetD metadata "twitter" tl
  let wl ← pyGetD metadata "website_link" links1.website
  let w2 ← pyGetD metadata "website" wl
  let gl ← pyGetD metadata "telegram_link" links1.telegram
  let g2 ← pyGetD metadata "telegram" gl
  pure (LinkBundle.mk t2 w2 g2)

/-- get_token_links: resolve a metadata URI to a link bundle. The Bool records
whether an HTTP request was issued. A falsy uri returns the defaults at once
with no request; requests.get raises on a truthy non-string URL before any
network traffic; a timeout, transport error, non-200 status, body-decoding
failure or metadata-shape exception all yield the defaults. The function is
total: no failure ever escapes the resolver. -/
def get_token_links (uri : Json) (fetch : FetchResult) : LinkBundle × Bool :=
  if jsonFalsy uri then (defaultLinks, false)
  else
    match uri with
    | .str _ =>
      match fetch with
      | .timeout => (defaultLinks, true)
      | .transportError => (defaultLinks, true)
      | .response status body =>
        if status = 200 then
          match body with
          | .error _ => (defaultLinks, true)
          | .ok metadata =>
            match buildLinks metadata with
            | .ok l => (l, true)
            | .error _ => (defaultLinks, true)
        else (defaultLinks, true)
    | _ => (defaultLinks, false)

/-- extract_account_name as called from process_token: on a non-string value
every Python path raises inside the helper and its try/except returns None. -/
def extract_account_name_j : Json → Option (List Char)
  | .str s => extract_account_name s.data
  | _ => none

/-- extract_tweet_id as called from process_token: non-string values yield
None (either the /status/ test is false or an exception is caught). -/
def extract_tweet_id_j : Json → Option (List Char)
  | .str s => extract_tweet_id s.data
  | _ => none

/-- Mutable pipeline state: the in-memory tweet_blacklist, the ledger file
contents (one line per record), and the allowed_accounts list. -/
structure BotState where
  tweet_blacklist : List (List Char)
  ledgerFile : List (List Char)
  allowed_accounts : List (List Char)

/-- Observable side effects of processing one token, in order. -/
inductive Effect where
  | ledgerAppend (line : List Char)
  | sinkSend (link : Json) (account : List Char)

/-- Which return path process_token took. -/
inductive Decision where
  | accept (account tweet_id : List Char)
  | noSocial
  | unparsable
  | alreadyProcessed
  | notAllowed
  | errorDrop
deriving DecidableEq

/-- The ledger key: f-string tweet_id|account_name. -/
def dedupKey (tweet_id account : List Char) : List Char := tweet_id ++ '|' :: account

/-- save_to_blacklist: append tweet_id|account to the ledger file and, only
after the file write succeeded, to the in-memory list; a write error is caught
and leaves both unchanged. writeOk records whether the file append succeeds. -/
def save_to_blacklist (writeOk : Bool) (tweet_id account : List Char) (st : BotState) :
    BotState × List Effect :=
  if writeOk then
    ({ st with
        ledgerFile := st.ledgerFile ++ [dedupKey tweet_id account],
        tweet_blacklist := st.tweet_blacklist ++ [dedupKey tweet_id account] },
      [Effect.ledgerAppend (dedupKey tweet_id account)])
  else (st, [])

/-- Python truthiness of an optional extracted string: None and the empty
string are falsy (`if not account_name or not tweet_id`). -/
def falsyOpt : Option (List Char) → Bool
  | none => true
  | some [] => true
  | some (_ :: _) => false

/-- process_token: resolve links from the uri (or metadataUri) field, reject
when the twitter link is the sentinel, when account or tweet id extraction is
falsy, when the dedup key is already blacklisted, or when the account is not
allowed; otherwise save to the blacklist and dispatch the Discord message.
A non-dict payload raises at the .get call and the surrounding try/except
drops the token. -/
def process_token (token : Json) (fetch : FetchResult) (writeOk : Bool) (st : BotState) :
    BotState × Decision × List Effect :=
  match token with
  | .obj fields =>
    let uri := (lookupField fields "uri").getD
      ((lookupField fields "metadataUri").getD (Json.str ""))
    let links := (get_token_links uri fetch).1
    let twitter_link := links.twitter
    if twitter_link.eqStr "Non disponible" then (st, Decision.noSocial, [])
    else
      let account_name := extract_account_name_j twitter_link
      let tweet_id := extract_tweet_id_j twitter_link
      if falsyOpt account_name || falsyOpt tweet_id then (st, Decision.unparsable, [])
      else
        let a := account_name.getD []
        let i := tweet_id.getD []
        if dedupKey i a ∈ st.tweet_blacklist then (st, Decision.alreadyProcessed, [])
        else if a ∉ st.allowed_accounts then (st, Decision.notAllowed, [])
        else
          let w := save_to_blacklist writeOk i a st
          (w.1, Decision.accept a i, w.2 ++ [Effect.sinkSend twitter_link a])
  | _ => (st, Decision.errorDrop, [])

/-- Fourth guard of on_websocket_message:
`elif 'mint' in data and 'txType' in data and data['txType'] == 'create'`,
else no shape matches and the frame is dropped. -/
def classifyStage4 (data : Json) : Except Unit (Option Json) := do
  let c4a ← pyContains data "mint"
  let b4 ←
    if c4a then do
      let c4b ← pyContains data "txType"
      if c4b then do pure ((← pyIndexStr data "txType").eqStr "create") else pure false
    else pure false
  if b4 then pure (some data) else pure none

/-- Third guard: `elif 'event' in data and data['event'] == 'token_created'`,
with the payload in data['data']. -/
def classifyStage3 (data : Json) : Except Unit (Option Json) := do
  let c3 ← pyContains data "event"
  let b3 ← if c3 then do pure ((← pyIndexStr data "event").eqStr "token_created") else pure false
  if b3 then do
    pure (some (← pyIndexStr data "data"))
  else classifyStage4 data

/-- Second guard: `elif 'type' in data and data['type'] == 'newToken'`, the
frame itself being the payload. -/
def classifyStage2 (data : Json) : Except Unit (Option Json) := do
  let c2 ← pyContains data "type"
  let b2 ← if c2 then do pure ((← pyIndexStr data "type").eqStr "newToken") else pure false
  if b2 then pure (some data)
  else classifyStage3 data

/-- The duck-typed dispatch of on_websocket_message: the four recognized wire
shapes, tried in order (the if/elif ladder is split into one definition per
guard); a Python exception inside a branch (missing params or data key,
indexing a non-dict) is caught by the handler and drops the frame. -/
def classifyE (data : Json) : Except Unit (Option Json) := do
  let c1 ← pyContains data "method"
  let b1 ← if c1 then do pure ((← pyIndexStr data "method").eqStr "newToken") else pure false
  if b1 then do
    pure (some (← pyIndexStr data "params"))
  else classifyStage2 data

/-- The classifier with the handler's try/except folded in: an exception drops
the frame exactly like an unrecognized shape. -/
def classify (data : Json) : Option Json :=
  match classifyE data with
  | .ok o => o
  | .error _ => none

/-- on_websocket_message: classify the decoded frame and, when a
token-creation payload is recognized, run process_token on it; otherwise the
frame is dropped with no processing and no state change. -/
def handleMessage (data : Json) (fetch : FetchResult) (writeOk : Bool) (st : BotState) :
    BotState × Option (Decision × List Effect) :=
  match classify data with
  | some payload =>
    let r := process_token payload fetch writeOk st
    (r.1, some (r.2.1, r.2.2))
  | none => (st, none)

/-- The normalized token-creation event: the metadata URI process_token reads
from the payload (uri, else metadataUri, else the empty string); None when the
payload is not a dict (process_token drops it). -/
def tokenURI : Json → Option Json
  | .obj fields => some ((lookupField fields "uri").getD
      ((lookupField fields "metadataUri").getD (Json.str "")))
  | _ => none

/-- Wire shape 1: method-based RPC notification carrying the payload in
params. -/
def shapeMethod (u : Json) : Json :=
  Json.obj [("method", Json.str "newToken"), ("params", Json.obj [("uri", u)])]

/-- Wire shape 2: type-tagged object, itself the payload. -/
def shapeType (u : Json) : Json :=
  Json.obj [("type", Json.str "newToken"), ("uri", u)]

/-- Wire shape 3: event-tagged envelope carrying the payload in data. -/
def shapeEvent (u : Json) : Json :=
  Json.obj [("event", Json.str "token_created"), ("data", Json.obj [("uri", u)])]

/-- Wire shape 4: flat record with a mint field and txType = create, itself
the payload. -/
def shapeCreate (mint u : Json) : Json :=
  Json.obj [("mint", mint), ("txType", Json.str "create"), ("uri", u)]

/-- The first guard of on_websocket_message on a dict frame. -/
def condMethod (fields : List (String × Json)) : Bool :=
  match lookupField fields "method" with
  | some v => v.eqStr "newToken"
  | none => false

/-- The second guard of on_websocket_message on a dict frame. -/
def condType (fields : List (String × Json)) : Bool :=
  match lookupField fields "type" with
  | some v => v.eqStr "newToken"
  | none => false

/-- The third guard of on_websocket_message on a dict frame. -/
def condEvent (fields : List (String × Json)) : Bool :=
  match lookupField fields "event" with
  | some v => v.eqStr "token_created"
  | none => false

/-- The fourth guard of on_websocket_message on a dict frame. -/
def condCreate (fields : List (String × Json)) : Bool :=
  (lookupField fields "mint").isSome &&
    (match lookupField fields "txType" with
     | some v => v.eqStr "create"
     | none => false)

/-- Modelled from the spec (for the refinement claim about resolver field
population): the nested properties.links object when present with that exact
shape. -/
def nestedLinksObj : Json → Option (List (String × Json))
  | .obj fields =>
    match lookupField fields "properties" with
    | some (.obj pfs) =>
      match lookupField pfs "links" with
      | some (.obj lfs) => some lfs
      | _ => none
    | _ => none
  | _ => none

/-- Modelled from the spec: populate one link field by consulting the nested
properties.links object first, then the top-level key pair tkey | tkeyLink; a
later source overrides the earlier value only when its key is actually
present, and absent keys leave the earlier value (or the sentinel default)
unchanged. -/
def specResolveField (metadata : Json) (nkey tkey tkeyLink : String) : Json :=
  let v1 :=
    match nestedLinksObj metadata with
    | some lfs => (lookupField lfs nkey).getD unavailable
    | none => unavailable
  match metadata with
  | .obj fields => (lookupField fields tkey).getD ((lookupField fields tkeyLink).getD v1)
  | _ => v1

/-- The token_data.get('uri', token_data.get('metadataUri', '')) expression of
process_token, on the fields of a dict payload. -/
def tokenURIof (fields : List (String × Json)) : Json :=
  (lookupField fields "uri").getD ((lookupField fields "metadataUri").getD (Json.str ""))

/-- The twitter link process_token reads for a dict payload under a given
fetch outcome. -/
def twitterLinkOf (fields : List (String × Json)) (fetch : FetchResult) : Json :=
  (get_token_links (tokenURIof fields) fetch).1.twitter

/-- sep has no occurrence beginning strictly inside a within a ++ sep ++ b, so
its first occurrence there is exactly at the border: every split at sep cuts
a ++ sep ++ b right after a. -/
def FirstOcc (sep a b : List Char) : Prop :=
  ∀ a2, a2 <:+ a → a2 ≠ [] → sep.isPrefixOf (a2 ++ sep ++ b) = false

def urlPre : List Char := "https://x.com/".data

def urlTail1 : List Char := "?x=1".data

def urlTail2 : List Char := "y".data

/-- A URL of the form https://x.com/(acct)/status/(id)?x=1#y. -/
def canonicalURL (acct tid : List Char) : List Char :=
  urlPre ++ acct ++ statusSep ++ tid ++ (urlTail1 ++ hashSep ++ urlTail2)

/-! Concrete scenario data used by witnesses and counterexamples. -/

/-- Payload of a frame whose metadata URI is present and truthy. -/
def aliceFields : List (String × Json) := [("uri", Json.str "https://meta.example/alice")]

/-- A 200 fetch whose metadata carries a top-level twitter link to alice. -/
def fetchAlice : FetchResult :=
  FetchResult.response 200 (Except.ok
    (Json.obj [("twitter", Json.str "https://x.com/alice/status/9")]))

/-- A 200 fetch whose metadata holds no link fields at all. -/
def fetchNoSocial : FetchResult := FetchResult.response 200 (Except.ok (Json.obj []))

/-- A 200 fetch whose twitter link has no host and no /status/ marker. -/
def fetchBadLink : FetchResult :=
  FetchResult.response 200 (Except.ok (Json.obj [("twitter", Json.str "nolink")]))

/-- Fresh state: empty ledger, alice allowed. -/
def stEmpty : BotState := ⟨[], [], ["alice".data]⟩

/-- State with the key 9|alice already recorded, alice allowed. -/
def stBlocked : BotState := ⟨["9|alice".data], ["9|alice".data], ["alice".data]⟩

/-- State with the key 9|alice pre-recorded in the loaded ledger while alice is
absent from the allow-list. -/
def stC3 : BotState := ⟨["9|alice".data], [], []⟩

/-- State with an empty allow-list and empty ledger. -/
def stNoAllow : BotState := ⟨[], [], []⟩

/-- stEmpty after accepting the 9|alice event with a successful file write. -/
def stAfter : BotState := ⟨["9|alice".data], ["9|alice".data], ["alice".data]⟩

/-- Metadata with a nested properties.links.twitter value, a top-level
website_link value, and no telegram key anywhere. -/
def mdFields : List (String × Json) :=
  [("properties", Json.obj [("links", Json.obj [("twitter", Json.str "tw")])]),
    ("website_link", Json.str "wl")]

end TweetCatcher

namespace TweetCatcher

/-! Basic facts about the Python split and substring-test embeddings. -/

theorem splitAuxF_ne_nil (sep : List Char) :
    ∀ (fuel : Nat) (s acc : List Char), splitAuxF sep fuel s acc ≠ [] := by
  intro fuel
  induction fuel with
  | zero => intro s acc; cases s <;> simp [splitAuxF]
  | succ n ih =>
    intro s acc
    cases s with
    | nil => simp [splitAuxF]
    | cons c rest =>
      simp only [splitAuxF]
      split
      · simp
      · exact ih rest (c :: acc)

theorem splitAuxF_fuel_eq (sep : List Char) :
    ∀ (f1 f2 : Nat) (s acc : List Char), s.length ≤ f1 → s.length ≤ f2 →
    splitAuxF sep f1 s acc = splitAuxF sep f2 s acc := by
  intro f1
  induction f1 with
  | zero =>
    intro f2 s acc h1 _
    have hs : s = [] := List.length_eq_zero.mp (Nat.le_zero.mp h1)
    subst hs
    cases f2 <;> simp [splitAuxF]
  | succ n ih =>
    intro f2 s acc h1 h2
    cases s with
    | nil => cases f2 <;> simp [splitAuxF]
    | cons c rest =>
      cases f2 with
      | zero => simp at h2
      | succ m =>
        simp only [splitAuxF]
        split
        · have hd : (rest.drop (sep.length - 1)).length ≤ rest.length := by
            simp [List.length_drop]
          have hr : rest.length ≤ n := by simpa using h1
          have hr2 : rest.length ≤ m := by simpa using h2
          exact congrArg _ (ih m _ [] (le_trans hd hr) (le_trans hd hr2))
        · exact ih m rest (c :: acc) (by simpa using h1) (by simpa using h2)

theorem splitAuxF_no_occ (sep : List Char) :
    ∀ (fuel : Nat) (s acc : List Char), s.length ≤ fuel →
    containsSeq sep s = false → splitAuxF sep fuel s acc = [acc.reverse ++ s] := by
  intro fuel
  induction fuel with
  | zero =>
    intro s acc h _
    have hs : s = [] := List.length_eq_zero.mp (Nat.le_zero.mp h)
    subst hs; simp [splitAuxF]
  | succ n ih =>
    intro s acc h hc
    cases s with
    | nil => simp [splitAuxF]
    | cons c rest =>
      simp only [containsSeq, Bool.or_eq_false_iff] at hc
      simp only [splitAuxF, hc.1, Bool.false_eq_true, if_false]
      rw [ih rest (c :: acc) (by simpa using h) hc.2]
      simp

theorem splitPy_no_occ (sep s : List Char) (h : containsSeq sep s = false) :
    splitPy sep s = [s] := by
  simpa using splitAuxF_no_occ sep s.length s [] le_rfl h

theorem containsSeq_append_self (sep a b : List Char) (hsep : sep ≠ []) :
    containsSeq sep (a ++ sep ++ b) = true := by
  induction a with
  | nil =>
    cases sep with
    | nil => exact absurd rfl hsep
    | cons c s' =>
      simp only [List.nil_append, List.cons_append, containsSeq, Bool.or_eq_true]
      left
      rw [List.isPrefixOf_iff_prefix]
      exact (c :: s').prefix_append b
  | cons c a' ih =>
    simp only [List.cons_append, containsSeq, Bool.or_eq_true]
    right
    simpa using ih

theorem containsSeq_head_mem (sep : List Char) (c : Char) (s : List Char)
    (h : containsSeq (c :: sep) s = true) : c ∈ s := by
  induction s with
  | nil => simp [containsSeq, List.isPrefixOf] at h
  | cons d rest ih =>
    simp only [containsSeq, Bool.or_eq_true] at h
    rcases h with h | h
    · rw [List.isPrefixOf_iff_prefix] at h
      obtain ⟨rfl, -⟩ := List.cons_prefix_cons.mp h
      exact List.mem_cons_self c rest
    · exact List.mem_cons_of_mem _ (ih h)

theorem containsSeq_singleton (c : Char) (s : List Char) :
    containsSeq [c] s = true ↔ c ∈ s := by
  induction s with
  | nil => simp [containsSeq, List.isPrefixOf]
  | cons d rest ih =>
    simp only [containsSeq, Bool.or_eq_true, ih, List.isPrefixOf_iff_prefix,
      List.cons_prefix_cons, List.mem_cons]
    constructor
    · rintro (⟨rfl, -⟩ | h)
      · exact Or.inl rfl
      · exact Or.inr h
    · rintro (rfl | h)
      · exact Or.inl ⟨rfl, List.nil_prefix⟩
      · exact Or.inr h

theorem splitAuxF_boundary (sep : List Char) (hsep : sep ≠ []) :
    ∀ (a b acc : List Char) (fuel : Nat), (a ++ sep ++ b).length ≤ fuel →
    FirstOcc sep a b →
    splitAuxF sep fuel (a ++ sep ++ b) acc = (acc.reverse ++ a) :: splitPy sep b := by
  intro a
  induction a with
  | nil =>
    intro b acc fuel hf _
    cases sep with
    | nil => exact absurd rfl hsep
    | cons c s' =>
      simp only [List.nil_append, List.cons_append] at hf ⊢
      cases fuel with
      | zero => simp at hf
      | succ n =>
        simp only [splitAuxF]
        rw [if_pos]
        · have hdrop : (s' ++ b).drop ((c :: s').length - 1) = b := by
            simp [List.drop_left']
          rw [hdrop, List.append_nil]
          congr 1
          apply splitAuxF_fuel_eq
          · have := hf
            simp only [List.length_cons, List.length_append] at this
            omega
          · exact le_rfl
        · rw [List.isPrefixOf_iff_prefix]
          exact (c :: s').prefix_append b
  | cons x a' ih =>
    intro b acc fuel hf hocc
    have hx : sep.isPrefixOf ((x :: a') ++ sep ++ b) = false :=
      hocc (x :: a') (List.suffix_refl _) (by simp)
    cases fuel with
    | zero => simp at hf
    | succ n =>
      simp only [List.cons_append] at hf hx ⊢
      simp only [splitAuxF, hx, Bool.false_eq_true, if_false]
      have hocc' : FirstOcc sep a' b := by
        intro a2 hs hne
        exact hocc a2 (hs.trans (a'.suffix_cons x)) hne
      rw [ih b (x :: acc) n (by simpa using hf) hocc']
      simp

theorem splitPy_boundary (sep a b : List Char) (hsep : sep ≠ []) (hocc : FirstOcc sep a b) :
    splitPy sep (a ++ sep ++ b) = a :: splitPy sep b := by
  have h := splitAuxF_boundary sep hsep a b [] (a ++ sep ++ b).length le_rfl hocc
  simpa [splitPy] using h

theorem firstOcc_nil (sep b : List Char) : FirstOcc sep [] b := by
  intro a2 hs hne
  exact absurd (List.suffix_nil.mp hs) hne

theorem firstOcc_singleton (c : Char) (a b : List Char) (h : c ∉ a) : FirstOcc [c] a b := by
  intro a2 hs hne
  cases a2 with
  | nil => exact absurd rfl hne
  | cons d rest =>
    have hd : d ∈ a := hs.subset (List.mem_cons_self d rest)
    have hcd : (c == d) = false := by
      simp only [beq_eq_false_iff_ne, ne_eq]
      rintro rfl; exact h hd
    simp [List.isPrefixOf, hcd]

theorem prefix_append_cases {α : Type} (pat a t : List α) (h : pat <+: a ++ t) :
    pat <+: a ∨ (a <+: pat ∧ pat.drop a.length <+: t) := by
  induction a generalizing pat with
  | nil => exact Or.inr ⟨List.nil_prefix, by simpa using h⟩
  | cons x a' ih =>
    cases pat with
    | nil => exact Or.inl (List.nil_prefix)
    | cons y pat' =>
      rw [List.cons_append, List.cons_prefix_cons] at h
      obtain ⟨rfl, h'⟩ := h
      rcases ih pat' h' with h1 | ⟨h2, h3⟩
      · exact Or.inl (List.cons_prefix_cons.mpr ⟨rfl, h1⟩)
      · exact Or.inr ⟨List.cons_prefix_cons.mpr ⟨rfl, h2⟩, by simpa using h3⟩

theorem suffix_append_cases {α : Type} (a2 l1 l2 : List α) (h : a2 <:+ l1 ++ l2) :
    a2 <:+ l2 ∨ ∃ m, m <:+ l1 ∧ m ≠ [] ∧ a2 = m ++ l2 := by
  induction l1 generalizing a2 with
  | nil => exact Or.inl (by simpa using h)
  | cons x l1' ih =>
    obtain ⟨t, ht⟩ := h
    cases t with
    | nil =>
      refine Or.inr ⟨x :: l1', List.suffix_refl _, by simp, ?_⟩
      simpa using ht
    | cons y t' =>
      have ht' : t' ++ a2 = l1' ++ l2 := by
        have := ht
        simp only [List.cons_append] at this
        exact (List.cons.injEq y _ x _).mp this |>.2
      rcases ih a2 ⟨t', ht'⟩ with h1 | ⟨m, hm, hne, he⟩
      · exact Or.inl h1
      · exact Or.inr ⟨m, hm.trans (l1'.suffix_cons x), hne, he⟩

theorem splitAuxF_head_pre (sep : List Char) :
    ∀ (fuel : Nat) (s acc : List Char),
    ∃ t, t <+: s ∧ (splitAuxF sep fuel s acc).headD [] = acc.reverse ++ t := by
  intro fuel
  induction fuel with
  | zero =>
    intro s acc
    cases s with
    | nil => exact ⟨[], List.nil_prefix, by simp [splitAuxF]⟩
    | cons c rest => exact ⟨c :: rest, List.prefix_refl _, by simp [splitAuxF]⟩
  | succ n ih =>
    intro s acc
    cases s with
    | nil => exact ⟨[], List.nil_prefix, by simp [splitAuxF]⟩
    | cons c rest =>
      simp only [splitAuxF]
      by_cases hp : sep.isPrefixOf (c :: rest) = true
      · exact ⟨[], List.nil_prefix, by simp [hp]⟩
      · obtain ⟨t, hpre, he⟩ := ih rest (c :: acc)
        refine ⟨c :: t, List.cons_prefix_cons.mpr ⟨rfl, hpre⟩, ?_⟩
        rw [if_neg hp, he]
        simp

theorem splitPy_head_pre (sep s : List Char) :
    ∃ t, t <+: s ∧ (splitPy sep s).headD [] = t := by
  obtain ⟨t, hpre, he⟩ := splitAuxF_head_pre sep s.length s []
  exact ⟨t, hpre, by simpa using he⟩

theorem splitAuxF_dropLast_mem (c : Char) :
    ∀ (s b acc : List Char) (f1 f2 : Nat), s.length ≤ f1 → (s ++ b).length ≤ f2 →
    ∀ p, p ∈ (splitAuxF [c] f1 s acc).dropLast → p ∈ splitAuxF [c] f2 (s ++ b) acc := by
  intro s
  induction s with
  | nil =>
    intro b acc f1 f2 _ _ p hp
    simp [splitAuxF] at hp
  | cons x rest ih =>
    intro b acc f1 f2 h1 h2 p hp
    cases f1 with
    | zero => simp at h1
    | succ n1 =>
      cases f2 with
      | zero => simp at h2
      | succ n2 =>
        have hdrop : ∀ (l : List Char), l.drop ([c].length - 1) = l := by
          intro l; simp
        have hr1 : rest.length ≤ n1 := by
          simp only [List.length_cons] at h1; omega
        have hr2 : (rest ++ b).length ≤ n2 := by
          simp only [List.cons_append, List.length_cons] at h2; omega
        cases hcx : [c].isPrefixOf (x :: rest) with
        | true =>
          have hcx2 : ([c].isPrefixOf (x :: (rest ++ b))) = true := by
            simp only [List.isPrefixOf] at hcx ⊢
            simpa using hcx
          rw [List.cons_append]
          simp only [splitAuxF, hcx, hcx2, if_true, hdrop] at hp ⊢
          have hL : splitAuxF [c] n1 rest [] ≠ [] := splitAuxF_ne_nil [c] n1 rest []
          rw [List.dropLast_cons_of_ne_nil hL] at hp
          rcases List.mem_cons.mp hp with rfl | hp2
          · exact List.mem_cons_self _ _
          · exact List.mem_cons_of_mem _ (ih b [] n1 n2 hr1 hr2 p hp2)
        | false =>
          have hcx2 : ([c].isPrefixOf (x :: (rest ++ b))) = false := by
            simp only [List.isPrefixOf] at hcx ⊢
            simpa using hcx
          rw [List.cons_append]
          simp only [splitAuxF, hcx, hcx2, Bool.false_eq_true, if_false] at hp ⊢
          exact ih b (x :: acc) n1 n2 hr1 hr2 p hp

theorem splitPy_dropLast_mem (c : Char) (s b p : List Char)
    (hp : p ∈ (splitPy [c] s).dropLast) : p ∈ splitPy [c] (s ++ b) := by
  exact splitAuxF_dropLast_mem c s b [] s.length (s ++ b).length le_rfl le_rfl p hp

theorem findAccount_none (l : List (List Char))
    (h : ∀ p, p ∈ l.dropLast → p ≠ xcomHost ∧ p ≠ twitterHost) : findAccount l = none := by
  induction l with
  | nil => rfl
  | cons p rest ih =>
    cases rest with
    | nil => rfl
    | cons q rest' =>
      have hp := h p (by simp)
      simp only [findAccount]
      rw [if_neg]
      · apply ih
        intro r hr
        exact h r (by simp [hr])
      · rintro (hx | hx)
        · exact hp.1 hx
        · exact hp.2 hx

/-! Facts about Python str.isPrefixOf-style comparisons used to locate the
first occurrence of a separator inside the canonical URL. -/

theorem isPrefixOf_cons_false (x y : Char) (xs ys : List Char) (h : (x == y) = false) :
    (x :: xs).isPrefixOf (y :: ys) = false := by
  simp [List.isPrefixOf, h]

theorem isPrefixOf_cons_same (x : Char) (xs ys : List Char) :
    (x :: xs).isPrefixOf (x :: ys) = xs.isPrefixOf ys := by
  simp [List.isPrefixOf]

/-- No occurrence of /status/ begins strictly inside "https://x.com/" ++ acct
when acct is a slash-free segment other than the literal "status": the first
/status/ in the canonical URL is the structural one. -/
theorem firstOcc_status (acct b : List Char) (h1 : '/' ∉ acct) (h2 : acct ≠ "status".data) :
    FirstOcc statusSep (urlPre ++ acct) b := by
  intro a2 hs hne
  have htail : ∀ (u : List Char), ("status/".data).isPrefixOf (acct ++ statusSep ++ u) = false := by
    intro u
    cases hb : ("status/".data).isPrefixOf (acct ++ statusSep ++ u) with
    | false => rfl
    | true =>
      exfalso
      have hpre : "status/".data <+: acct ++ (statusSep ++ u) := by
        rw [← List.append_assoc]
        exact List.isPrefixOf_iff_prefix.mp hb
      rcases prefix_append_cases "status/".data acct (statusSep ++ u) hpre with hca | ⟨hca, hrest⟩
      · exact h1 (hca.subset (by decide))
      · have hini : acct ∈ ("status/".data).inits := (List.mem_inits _ _).mpr hca
        have hinits : ("status/".data).inits =
            [[], "s".data, "st".data, "sta".data, "stat".data, "statu".data,
              "status".data, "status/".data] := rfl
        rw [hinits] at hini
        simp only [List.mem_cons, List.mem_nil_iff, or_false] at hini
        rcases hini with rfl | rfl | rfl | rfl | rfl | rfl | rfl | rfl
        · obtain ⟨he, -⟩ := List.cons_prefix_cons.mp hrest
          exact absurd he (by decide)
        · obtain ⟨he, -⟩ := List.cons_prefix_cons.mp hrest
          exact absurd he (by decide)
        · obtain ⟨he, -⟩ := List.cons_prefix_cons.mp hrest
          exact absurd he (by decide)
        · obtain ⟨he, -⟩ := List.cons_prefix_cons.mp hrest
          exact absurd he (by decide)
        · obtain ⟨he, -⟩ := List.cons_prefix_cons.mp hrest
          exact absurd he (by decide)
        · obtain ⟨he, -⟩ := List.cons_prefix_cons.mp hrest
          exact absurd he (by decide)
        · exact h2 rfl
        · exact h1 (by decide)
  rcases suffix_append_cases a2 urlPre acct hs with hsuf | ⟨m, hm, hmne, rfl⟩
  · cases a2 with
    | nil => exact absurd rfl hne
    | cons d rest =>
      have hd : d ∈ acct := hsuf.subset (List.mem_cons_self d rest)
      have hdne : ('/' == d) = false := by
        simp only [beq_eq_false_iff_ne, ne_eq]
        rintro rfl; exact h1 hd
      exact isPrefixOf_cons_false '/' d "status/".data _ hdne
  · have hmem : m ∈ urlPre.tails := (List.mem_tails _ _).mpr hm
    have htails : urlPre.tails =
        ["https://x.com/".data, "ttps://x.com/".data, "tps://x.com/".data, "ps://x.com/".data,
          "s://x.com/".data, "://x.com/".data, "//x.com/".data, "/x.com/".data, "x.com/".data,
          ".com/".data, "com/".data, "om/".data, "m/".data, "/".data, []] := rfl
    rw [htails] at hmem
    simp only [List.mem_cons, List.mem_nil_iff, or_false] at hmem
    rcases hmem with rfl | rfl | rfl | rfl | rfl | rfl | rfl | rfl | rfl | rfl | rfl | rfl |
      rfl | rfl | rfl
    · exact isPrefixOf_cons_false '/' 'h' "status/".data _ (by decide)
    · exact isPrefixOf_cons_false '/' 't' "status/".data _ (by decide)
    · exact isPrefixOf_cons_false '/' 't' "status/".data _ (by decide)
    · exact isPrefixOf_cons_false '/' 'p' "status/".data _ (by decide)
    · exact isPrefixOf_cons_false '/' 's' "status/".data _ (by decide)
    · exact isPrefixOf_cons_false '/' ':' "status/".data _ (by decide)
    · show statusSep.isPrefixOf
        ('/' :: (("/x.com/".data ++ acct) ++ statusSep ++ b)) = false
      rw [show (statusSep : List Char) = '/' :: "status/".data from rfl,
        isPrefixOf_cons_same]
      exact isPrefixOf_cons_false 's' '/' "tatus/".data _ (by decide)
    · show statusSep.isPrefixOf
        ('/' :: (("x.com/".data ++ acct) ++ statusSep ++ b)) = false
      rw [show (statusSep : List Char) = '/' :: "status/".data from rfl,
        isPrefixOf_cons_same]
      exact isPrefixOf_cons_false 's' 'x' "tatus/".data _ (by decide)
    · exact isPrefixOf_cons_false '/' 'x' "status/".data _ (by decide)
    · exact isPrefixOf_cons_false '/' '.' "status/".data _ (by decide)
    · exact isPrefixOf_cons_false '/' 'c' "status/".data _ (by decide)
    · exact isPrefixOf_cons_false '/' 'o' "status/".data _ (by decide)
    · exact isPrefixOf_cons_false '/' 'm' "status/".data _ (by decide)
    · show statusSep.isPrefixOf ('/' :: (acct ++ statusSep ++ b)) = false
      rw [show (statusSep : List Char) = '/' :: "status/".data from rfl,
        isPrefixOf_cons_same]
      exact htail b
    · exact absurd rfl hmne

theorem containsSeq_slash_false (acct : List Char) (h1 : '/' ∉ acct) :
    containsSeq ['/'] acct = false := by
  cases hc : containsSeq ['/'] acct with
  | false => rfl
  | true => exact absurd ((containsSeq_singleton '/' acct).mp hc) h1

/-- Splitting https://x.com/(acct) on / for a slash-free acct gives the
expected four segments. -/
theorem splitPy_url_parts (acct : List Char) (h1 : '/' ∉ acct) :
    splitPy ['/'] (urlPre ++ acct) = ["https:".data, [], "x.com".data, acct] := by
  have e1 : urlPre ++ acct =
      "https:".data ++ ['/'] ++ ([] ++ ['/'] ++ ("x.com".data ++ ['/'] ++ acct)) := rfl
  rw [e1,
    splitPy_boundary ['/'] "https:".data _ (by simp) (firstOcc_singleton '/' _ _ (by decide)),
    splitPy_boundary ['/'] [] _ (by simp) (firstOcc_nil _ _),
    splitPy_boundary ['/'] "x.com".data _ (by simp) (firstOcc_singleton '/' _ _ (by decide)),
    splitPy_no_occ ['/'] acct (containsSeq_slash_false acct h1)]

/-- extract_account_name on the canonical URL returns the lower-cased,
sanitized account segment, for any hash- and slash-free account other than
the literal "status" and any hash-free id segment. -/
theorem extract_account_canonical (acct tid : List Char)
    (h1 : '/' ∉ acct) (h2 : '#' ∉ acct) (h3 : acct ≠ "status".data) (h5 : '#' ∉ tid) :
    extract_account_name (canonicalURL acct tid) = some (cleanAccount acct) := by
  have hA : canonicalURL acct tid =
      (urlPre ++ acct ++ statusSep ++ tid ++ urlTail1) ++ hashSep ++ urlTail2 := by
    simp [canonicalURL, List.append_assoc]
  have hhA : '#' ∉ urlPre ++ acct ++ statusSep ++ tid ++ urlTail1 := by
    intro hc
    rcases List.mem_append.mp hc with hc | hc
    · rcases List.mem_append.mp hc with hc | hc
      · rcases List.mem_append.mp hc with hc | hc
        · rcases List.mem_append.mp hc with hc | hc
          · exact absurd hc (by decide)
          · exact h2 hc
        · exact absurd hc (by decide)
      · exact h5 hc
    · exact absurd hc (by decide)
  have hhash : containsSeq hashSep (canonicalURL acct tid) = true := by
    rw [hA]
    exact containsSeq_append_self hashSep _ _ (by simp [hashSep])
  have hsplit1 : splitPy hashSep (canonicalURL acct tid) =
      (urlPre ++ acct ++ statusSep ++ tid ++ urlTail1) :: splitPy hashSep urlTail2 := by
    rw [hA]
    exact splitPy_boundary hashSep _ _ (by simp [hashSep]) (firstOcc_singleton '#' _ _ hhA)
  have hA2 : urlPre ++ acct ++ statusSep ++ tid ++ urlTail1 =
      (urlPre ++ acct) ++ statusSep ++ (tid ++ urlTail1) := by
    simp [List.append_assoc]
  have hstat : containsSeq statusSep (urlPre ++ acct ++ statusSep ++ tid ++ urlTail1) = true := by
    rw [hA2]
    exact containsSeq_append_self statusSep _ _ (by decide)
  have hsplit2 : splitPy statusSep (urlPre ++ acct ++ statusSep ++ tid ++ urlTail1) =
      (urlPre ++ acct) :: splitPy statusSep (tid ++ urlTail1) := by
    rw [hA2]
    exact splitPy_boundary statusSep _ _ (by decide) (firstOcc_status acct _ h1 h3)
  have hfind : findAccount ["https:".data, [], "x.com".data, acct] = some (cleanAccount acct) := by
    simp only [findAccount]
    rw [if_neg (by decide), if_neg (by decide), if_pos (Or.inl (by decide))]
  simp only [extract_account_name, hhash, if_true, hsplit1, List.headD_cons, hstat, hsplit2,
    splitPy_url_parts acct h1, hfind]

/-- extract_tweet_id on the canonical URL returns the id segment, for any
slash-free account other than "status" and any id free of /, # and ?. -/
theorem extract_tweet_canonical (acct tid : List Char)
    (h1 : '/' ∉ acct) (h3 : acct ≠ "status".data)
    (h4 : '/' ∉ tid) (h5 : '#' ∉ tid) (h6 : '?' ∉ tid) :
    extract_tweet_id (canonicalURL acct tid) = some tid := by
  have hA2 : canonicalURL acct tid =
      (urlPre ++ acct) ++ statusSep ++ (tid ++ (urlTail1 ++ hashSep ++ urlTail2)) := by
    simp [canonicalURL, List.append_assoc]
  have hcont : containsSeq statusSep (canonicalURL acct tid) = true := by
    rw [hA2]
    exact containsSeq_append_self statusSep _ _ (by decide)
  have hno : containsSeq statusSep (tid ++ (urlTail1 ++ hashSep ++ urlTail2)) = false := by
    cases hc : containsSeq statusSep (tid ++ (urlTail1 ++ hashSep ++ urlTail2)) with
    | false => rfl
    | true =>
      exfalso
      have hmem : '/' ∈ tid ++ (urlTail1 ++ hashSep ++ urlTail2) :=
        containsSeq_head_mem "status/".data '/' _ hc
      rcases List.mem_append.mp hmem with hmem | hmem
      · exact h4 hmem
      · exact absurd hmem (by decide)
  have hsplit : splitPy statusSep (canonicalURL acct tid) =
      [urlPre ++ acct, tid ++ (urlTail1 ++ hashSep ++ urlTail2)] := by
    rw [hA2, splitPy_boundary statusSep _ _ (by decide) (firstOcc_status acct _ h1 h3),
      splitPy_no_occ statusSep _ hno]
  have htid1 : tid ++ (urlTail1 ++ hashSep ++ urlTail2) =
      (tid ++ urlTail1) ++ hashSep ++ urlTail2 := by
    simp [List.append_assoc]
  have hh : '#' ∉ tid ++ urlTail1 := by
    intro hc
    rcases List.mem_append.mp hc with hc | hc
    · exact h5 hc
    · exact absurd hc (by decide)
  have hsplit2 : splitPy hashSep (tid ++ (urlTail1 ++ hashSep ++ urlTail2)) =
      (tid ++ urlTail1) :: splitPy hashSep urlTail2 := by
    rw [htid1]
    exact splitPy_boundary hashSep _ _ (by simp [hashSep]) (firstOcc_singleton '#' _ _ hh)
  have htid2 : tid ++ urlTail1 = tid ++ ['?'] ++ "x=1".data := by
    simp [urlTail1, List.append_assoc]
  have hsplit3 : splitPy ['?'] (tid ++ urlTail1) = tid :: splitPy ['?'] "x=1".data := by
    rw [htid2]
    exact splitPy_boundary ['?'] _ _ (by simp) (firstOcc_singleton '?' _ _ h6)
  simp only [extract_tweet_id, hcont, if_true, hsplit, List.getD_cons_succ, List.getD_cons_zero,
    hsplit2, List.headD_cons, hsplit3]

/-- C8 counterexample: the account segment "status" is a URL of the claimed
form https://x.com/(acct)/status/(id)?x=1#y on which both extractors disagree
with the claim: extract_account_name returns None instead of "status", and
extract_tweet_id returns "status/999" instead of "999" (the first /status/
cut fires inside the account segment). -/
theorem C8_counterexample :
    canonicalURL "status".data "999".data = "https://x.com/status/status/999?x=1#y".data ∧
    extract_account_name "https://x.com/status/status/999?x=1#y".data = none ∧
    (none : Option (List Char)) ≠ some (cleanAccount "status".data) ∧
    extract_tweet_id "https://x.com/status/status/999?x=1#y".data = some "status/999".data ∧
    some "status/999".data ≠ some "999".data := by
  refine ⟨rfl, rfl, ?_, rfl, ?_⟩ <;> decide

/-- C8 (amended): for every URL of the form https://x.com/(acct)/status/(id)?x=1#y
in which acct is a segment free of '/' and '#' and different from the literal
"status", and id is a segment free of '/', '#' and '?', extract_account_name
returns acct lower-cased with every character that is not alphanumeric or
underscore removed, and extract_tweet_id returns id with the trailing ?... and
#... stripped. -/
theorem C8_link_parsing_amended (acct tid : List Char)
    (h1 : '/' ∉ acct) (h2 : '#' ∉ acct) (h3 : acct ≠ "status".data)
    (h4 : '/' ∉ tid) (h5 : '#' ∉ tid) (h6 : '?' ∉ tid) :
    extract_account_name (canonicalURL acct tid) = some (cleanAccount acct) ∧
    extract_tweet_id (canonicalURL acct tid) = some tid :=
  ⟨extract_account_canonical acct tid h1 h2 h3 h5,
    extract_tweet_canonical acct tid h1 h3 h4 h5 h6⟩

theorem C8_witness :
    extract_account_name (canonicalURL "Alice_01!".data "999".data) = some "alice_01".data ∧
    extract_tweet_id (canonicalURL "Alice_01!".data "999".data) = some "999".data := by
  have h := C8_link_parsing_amended "Alice_01!".data "999".data
    (by decide) (by decide) (by decide) (by decide) (by decide) (by decide)
  exact ⟨h.1.trans (by decide), h.2⟩

theorem extract_account_name_none (link : List Char)
    (h : ∀ p, p ∈ splitPy ['/'] link → p ≠ xcomHost ∧ p ≠ twitterHost) :
    extract_account_name link = none := by
  have key : ∀ s, s <+: link → findAccount (splitPy ['/'] s) = none := by
    intro s hs
    obtain ⟨r, hr⟩ := hs
    apply findAccount_none
    intro p hp
    have hmem : p ∈ splitPy ['/'] (s ++ r) := splitPy_dropLast_mem '/' s r p hp
    rw [hr] at hmem
    exact h p hmem
  have h1 : (if containsSeq hashSep link then (splitPy hashSep link).headD [] else link)
      <+: link := by
    split
    · obtain ⟨t1, hp1, he1⟩ := splitPy_head_pre hashSep link
      rw [he1]; exact hp1
    · exact List.prefix_refl _
  have step : ∀ s : List Char, s <+: link →
      (if containsSeq statusSep s then (splitPy statusSep s).headD [] else s) <+: link := by
    intro s hs
    split
    · obtain ⟨t2, hp2, he2⟩ := splitPy_head_pre statusSep s
      rw [he2]; exact hp2.trans hs
    · exact hs
  simp only [extract_account_name]
  exact key _ (step _ h1)

/-- C9: a URL with no slash-delimited segment equal to one of the two known hosts yields
None from extract_account_name (a truncated final segment can never match
usefully, because a matching segment needs a successor segment), and a URL
without the /status/ marker yields None from extract_tweet_id; neither
situation is an error. -/
theorem C9_parser_none :
    (∀ link : List Char,
      (∀ p, p ∈ splitPy ['/'] link → p ≠ xcomHost ∧ p ≠ twitterHost) →
      extract_account_name link = none) ∧
    (∀ link : List Char, containsSeq statusSep link = false →
      extract_tweet_id link = none) := by
  constructor
  · exact extract_account_name_none
  · intro link h
    simp [extract_tweet_id, h]

theorem C9_witness :
    extract_account_name "https://example.com/alice/status/7".data = none ∧
    extract_tweet_id "https://x.com/alice".data = none := by
  refine ⟨C9_parser_none.1 _ (by decide), C9_parser_none.2 _ (by decide)⟩

/-! The filter gate of process_token: one lemma per return path, plus
monotonicity of the ledger state and an inversion principle for acceptance. -/

theorem falsyOpt_false_inv (o : Option (List Char)) (ho : falsyOpt o = false) :
    o = some (o.getD []) ∧ o.getD [] ≠ [] := by
  cases o with
  | none => simp [falsyOpt] at ho
  | some l =>
    cases l with
    | nil => simp [falsyOpt] at ho
    | cons c cs => exact ⟨rfl, by simp⟩

theorem gate_noSocial (fields : List (String × Json)) (fetch : FetchResult) (w : Bool)
    (st : BotState)
    (h : (twitterLinkOf fields fetch).eqStr "Non disponible" = true) :
    process_token (Json.obj fields) fetch w st = (st, Decision.noSocial, []) := by
  simp only [twitterLinkOf, tokenURIof] at h
  simp only [process_token, h, if_true]

theorem gate_unparsable (fields : List (String × Json)) (fetch : FetchResult) (w : Bool)
    (st : BotState)
    (h0 : (twitterLinkOf fields fetch).eqStr "Non disponible" = false)
    (h : (falsyOpt (extract_account_name_j (twitterLinkOf fields fetch)) ||
          falsyOpt (extract_tweet_id_j (twitterLinkOf fields fetch))) = true) :
    process_token (Json.obj fields) fetch w st = (st, Decision.unparsable, []) := by
  simp only [twitterLinkOf, tokenURIof] at h0 h
  simp only [process_token, h0, h, Bool.false_eq_true, if_false, if_true]

theorem gate_already (fields : List (String × Json)) (fetch : FetchResult) (w : Bool)
    (st : BotState) (a i : List Char)
    (h0 : (twitterLinkOf fields fetch).eqStr "Non disponible" = false)
    (ha : extract_account_name_j (twitterLinkOf fields fetch) = some a) (hane : a ≠ [])
    (hi : extract_tweet_id_j (twitterLinkOf fields fetch) = some i) (hine : i ≠ [])
    (hbl : dedupKey i a ∈ st.tweet_blacklist) :
    process_token (Json.obj fields) fetch w st = (st, Decision.alreadyProcessed, []) := by
  have hfo : (falsyOpt (some a) || falsyOpt (some i)) = false := by
    cases a with
    | nil => exact absurd rfl hane
    | cons c cs =>
      cases i with
      | nil => exact absurd rfl hine
      | cons d ds => rfl
  simp only [twitterLinkOf, tokenURIof] at h0 ha hi
  simp only [process_token, h0, ha, hi, hfo, Bool.false_eq_true, if_false,
    Option.getD_some, hbl, if_true]

theorem gate_notAllowed (fields : List (String × Json)) (fetch : FetchResult) (w : Bool)
    (st : BotState) (a i : List Char)
    (h0 : (twitterLinkOf fields fetch).eqStr "Non disponible" = false)
    (ha : extract_account_name_j (twitterLinkOf fields fetch) = some a) (hane : a ≠ [])
    (hi : extract_tweet_id_j (twitterLinkOf fields fetch) = some i) (hine : i ≠ [])
    (hbl : dedupKey i a ∉ st.tweet_blacklist)
    (hal : a ∉ st.allowed_accounts) :
    process_token (Json.obj fields) fetch w st = (st, Decision.notAllowed, []) := by
  have hfo : (falsyOpt (some a) || falsyOpt (some i)) = false := by
    cases a with
    | nil => exact absurd rfl hane
    | cons c cs =>
      cases i with
      | nil => exact absurd rfl hine
      | cons d ds => rfl
  simp only [twitterLinkOf, tokenURIof] at h0 ha hi
  simp only [process_token, h0, ha, hi, hfo, Bool.false_eq_true, if_false,
    Option.getD_some, hbl, hal, not_false_iff, if_true]

theorem gate_accept (fields : List (String × Json)) (fetch : FetchResult) (w : Bool)
    (st : BotState) (a i : List Char)
    (h0 : (twitterLinkOf fields fetch).eqStr "Non disponible" = false)
    (ha : extract_account_name_j (twitterLinkOf fields fetch) = some a) (hane : a ≠ [])
    (hi : extract_tweet_id_j (twitterLinkOf fields fetch) = some i) (hine : i ≠ [])
    (hbl : dedupKey i a ∉ st.tweet_blacklist)
    (hal : a ∈ st.allowed_accounts) :
    process_token (Json.obj fields) fetch w st =
      ((save_to_blacklist w i a st).1, Decision.accept a i,
        (save_to_blacklist w i a st).2 ++
          [Effect.sinkSend (twitterLinkOf fields fetch) a]) := by
  have hfo : (falsyOpt (some a) || falsyOpt (some i)) = false := by
    cases a with
    | nil => exact absurd rfl hane
    | cons c cs =>
      cases i with
      | nil => exact absurd rfl hine
      | cons d ds => rfl
  simp only [twitterLinkOf, tokenURIof] at h0 ha hi ⊢
  simp only [process_token, h0, ha, hi, hfo, Bool.false_eq_true, if_false,
    Option.getD_some, hbl, if_true]
  rw [if_neg (not_not_intro hal)]

theorem process_token_mono (token : Json) (fetch : FetchResult) (w : Bool) (st : BotState) :
    ∃ tail, (process_token token fetch w st).1.tweet_blacklist = st.tweet_blacklist ++ tail ∧
      (process_token token fetch w st).1.ledgerFile = st.ledgerFile ++ tail := by
  cases token
  case obj fields =>
    simp only [process_token]
    split
    · exact ⟨[], by simp, by simp⟩
    · split
      · exact ⟨[], by simp, by simp⟩
      · split
        · exact ⟨[], by simp, by simp⟩
        · split
          · exact ⟨[], by simp, by simp⟩
          · cases w with
            | true => exact ⟨_, rfl, rfl⟩
            | false => exact ⟨[], by simp [save_to_blacklist], by simp [save_to_blacklist]⟩
  all_goals exact ⟨[], by simp [process_token], by simp [process_token]⟩

theorem gate_accept_inversion (fields : List (String × Json)) (fetch : FetchResult) (w : Bool)
    (st st1 : BotState) (a i : List Char) (effs : List Effect)
    (h : process_token (Json.obj fields) fetch w st = (st1, Decision.accept a i, effs)) :
    (twitterLinkOf fields fetch).eqStr "Non disponible" = false ∧
    extract_account_name_j (twitterLinkOf fields fetch) = some a ∧ a ≠ [] ∧
    extract_tweet_id_j (twitterLinkOf fields fetch) = some i ∧ i ≠ [] ∧
    dedupKey i a ∉ st.tweet_blacklist ∧ a ∈ st.allowed_accounts ∧
    st1 = (save_to_blacklist w i a st).1 ∧
    effs = (save_to_blacklist w i a st).2 ++
      [Effect.sinkSend (twitterLinkOf fields fetch) a] := by
  simp only [twitterLinkOf, tokenURIof] at h ⊢
  simp only [process_token] at h
  split at h
  · simp at h
  · split at h
    · simp at h
    · split at h
      · simp at h
      · split at h
        · simp at h
        · rename_i h0 hfal hbl hal
          simp only [Prod.mk.injEq, Decision.accept.injEq] at h
          obtain ⟨hst, ⟨rfl, rfl⟩, heff⟩ := h
          rw [Bool.not_eq_true] at h0
          simp only [Bool.or_eq_true, not_or, Bool.not_eq_true] at hfal
          obtain ⟨hfa, hfi⟩ := hfal
          obtain ⟨ha, hane⟩ := falsyOpt_false_inv _ hfa
          obtain ⟨hi, hine⟩ := falsyOpt_false_inv _ hfi
          exact ⟨h0, ha, hane, hi, hine, hbl, not_not.mp (by simpa using hal),
            hst.symm, heff.symm⟩

theorem process_token_append_inv (token : Json) (fetch : FetchResult) (w : Bool)
    (st : BotState) :
    ∀ line, Effect.ledgerAppend line ∈ (process_token token fetch w st).2.2 →
    ∃ a i, (process_token token fetch w st).2.1 = Decision.accept a i ∧
      line = dedupKey i a := by
  cases token
  case obj fields =>
    intro line
    simp only [process_token]
    split
    · intro h; simp at h
    · split
      · intro h; simp at h
      · split
        · intro h; simp at h
        · split
          · intro h; simp at h
          · cases w with
            | true =>
              intro h
              simp only [save_to_blacklist, if_true, List.cons_append, List.nil_append,
                List.mem_cons, List.not_mem_nil, or_false, Effect.ledgerAppend.injEq] at h
              rcases h with h | h
              · exact ⟨_, _, rfl, h⟩
              · exact absurd h (by simp)
            | false =>
              intro h
              simp only [save_to_blacklist, Bool.false_eq_true, if_false, List.nil_append,
                List.mem_singleton] at h
              exact absurd h (by simp)
  all_goals intro line h
  all_goals simp [process_token] at h

/-- C1: the dedup ledger is append-only across process_token (a recorded key is
never removed, in memory or in the file); a frame whose computed key is already
present is rejected as already processed with no state change, no ledger
append and no sink call; and a frame accepted with a successful ledger write is
rejected as already processed on replay against the resulting state. -/
theorem C1_dedup_idempotence :
    (∀ (token : Json) (fetch : FetchResult) (w : Bool) (st : BotState) (k : List Char),
      k ∈ st.tweet_blacklist → k ∈ (process_token token fetch w st).1.tweet_blacklist) ∧
    (∀ (token : Json) (fetch : FetchResult) (w : Bool) (st : BotState) (k : List Char),
      k ∈ st.ledgerFile → k ∈ (process_token token fetch w st).1.ledgerFile) ∧
    (∀ (fields : List (String × Json)) (fetch : FetchResult) (w : Bool) (st : BotState)
        (a i : List Char),
      (twitterLinkOf fields fetch).eqStr "Non disponible" = false →
      extract_account_name_j (twitterLinkOf fields fetch) = some a → a ≠ [] →
      extract_tweet_id_j (twitterLinkOf fields fetch) = some i → i ≠ [] →
      dedupKey i a ∈ st.tweet_blacklist →
      process_token (Json.obj fields) fetch w st = (st, Decision.alreadyProcessed, [])) ∧
    (∀ (fields : List (String × Json)) (fetch : FetchResult) (st st1 : BotState)
        (a i : List Char) (effs : List Effect),
      process_token (Json.obj fields) fetch true st = (st1, Decision.accept a i, effs) →
      ∀ w2 : Bool,
        process_token (Json.obj fields) fetch w2 st1 = (st1, Decision.alreadyProcessed, [])) := by
  refine ⟨?_, ?_, ?_, ?_⟩
  · intro token fetch w st k hk
    obtain ⟨tail, hbl, -⟩ := process_token_mono token fetch w st
    rw [hbl]
    exact List.mem_append_left _ hk
  · intro token fetch w st k hk
    obtain ⟨tail, -, hlf⟩ := process_token_mono token fetch w st
    rw [hlf]
    exact List.mem_append_left _ hk
  · intro fields fetch w st a i h0 ha hane hi hine hbl
    exact gate_already fields fetch w st a i h0 ha hane hi hine hbl
  · intro fields fetch st st1 a i effs h w2
    obtain ⟨h0, ha, hane, hi, hine, hbl, hal, hst, heff⟩ :=
      gate_accept_inversion fields fetch true st st1 a i effs h
    have hbl1 : dedupKey i a ∈ st1.tweet_blacklist := by
      rw [hst]
      simp [save_to_blacklist]
    exact gate_already fields fetch w2 st1 a i h0 ha hane hi hine hbl1

theorem C1_witness :
    process_token (Json.obj aliceFields) fetchAlice true stBlocked
      = (stBlocked, Decision.alreadyProcessed, []) ∧
    "9|alice".data ∈
      (process_token (Json.obj aliceFields) fetchAlice true stBlocked).1.tweet_blacklist ∧
    process_token (Json.obj aliceFields) fetchAlice false stAfter
      = (stAfter, Decision.alreadyProcessed, []) := by
  refine ⟨?_, ?_, ?_⟩
  · exact C1_dedup_idempotence.2.2.1 aliceFields fetchAlice true stBlocked
      "alice".data "9".data rfl rfl (by decide) rfl (by decide) (by decide)
  · exact C1_dedup_idempotence.1 (Json.obj aliceFields) fetchAlice true stBlocked
      "9|alice".data (by decide)
  · exact C1_dedup_idempotence.2.2.2 aliceFields fetchAlice stEmpty stAfter
      "alice".data "9".data _ rfl false

/-- C2: the filter gate of process_token evaluates, in this order and
short-circuiting on the first rejection: the "Non disponible" sentinel test on
the resolved twitter link, the falsy test on the extracted account and tweet
id, the dedup-ledger membership test on the computed key, then the allow-list
membership test; only then does it accept with the extracted account and id. -/
theorem C2_gate_order (fields : List (String × Json)) (fetch : FetchResult) (w : Bool)
    (st : BotState) :
    ((twitterLinkOf fields fetch).eqStr "Non disponible" = true →
      process_token (Json.obj fields) fetch w st = (st, Decision.noSocial, [])) ∧
    ((twitterLinkOf fields fetch).eqStr "Non disponible" = false →
      (falsyOpt (extract_account_name_j (twitterLinkOf fields fetch)) ||
        falsyOpt (extract_tweet_id_j (twitterLinkOf fields fetch))) = true →
      process_token (Json.obj fields) fetch w st = (st, Decision.unparsable, [])) ∧
    (∀ a i : List Char,
      (twitterLinkOf fields fetch).eqStr "Non disponible" = false →
      extract_account_name_j (twitterLinkOf fields fetch) = some a → a ≠ [] →
      extract_tweet_id_j (twitterLinkOf fields fetch) = some i → i ≠ [] →
      dedupKey i a ∈ st.tweet_blacklist →
      process_token (Json.obj fields) fetch w st = (st, Decision.alreadyProcessed, [])) ∧
    (∀ a i : List Char,
      (twitterLinkOf fields fetch).eqStr "Non disponible" = false →
      extract_account_name_j (twitterLinkOf fields fetch) = some a → a ≠ [] →
      extract_tweet_id_j (twitterLinkOf fields fetch) = some i → i ≠ [] →
      dedupKey i a ∉ st.tweet_blacklist → a ∉ st.allowed_accounts →
      process_token (Json.obj fields) fetch w st = (st, Decision.notAllowed, [])) ∧
    (∀ a i : List Char,
      (twitterLinkOf fields fetch).eqStr "Non disponible" = false →
      extract_account_name_j (twitterLinkOf fields fetch) = some a → a ≠ [] →
      extract_tweet_id_j (twitterLinkOf fields fetch) = some i → i ≠ [] →
      dedupKey i a ∉ st.tweet_blacklist → a ∈ st.allowed_accounts →
      process_token (Json.obj fields) fetch w st =
        ((save_to_blacklist w i a st).1, Decision.accept a i,
          (save_to_blacklist w i a st).2 ++
            [Effect.sinkSend (twitterLinkOf fields fetch) a])) := by
  refine ⟨gate_noSocial fields fetch w st, gate_unparsable fields fetch w st, ?_, ?_, ?_⟩
  · intro a i h0 ha hane hi hine hbl
    exact gate_already fields fetch w st a i h0 ha hane hi hine hbl
  · intro a i h0 ha hane hi hine hbl hal
    exact gate_notAllowed fields fetch w st a i h0 ha hane hi hine hbl hal
  · intro a i h0 ha hane hi hine hbl hal
    exact gate_accept fields fetch w st a i h0 ha hane hi hine hbl hal

theorem C2_witness :
    process_token (Json.obj aliceFields) fetchNoSocial true stEmpty
      = (stEmpty, Decision.noSocial, []) ∧
    process_token (Json.obj aliceFields) fetchBadLink true stEmpty
      = (stEmpty, Decision.unparsable, []) ∧
    process_token (Json.obj aliceFields) fetchAlice true stBlocked
      = (stBlocked, Decision.alreadyProcessed, []) ∧
    process_token (Json.obj aliceFields) fetchAlice true stNoAllow
      = (stNoAllow, Decision.notAllowed, []) ∧
    process_token (Json.obj aliceFields) fetchAlice true stEmpty
      = (stAfter, Decision.accept "alice".data "9".data,
          [Effect.ledgerAppend "9|alice".data,
            Effect.sinkSend (Json.str "https://x.com/alice/status/9") "alice".data]) := by
  refine ⟨?_, ?_, ?_, ?_, ?_⟩
  · exact (C2_gate_order aliceFields fetchNoSocial true stEmpty).1 rfl
  · exact (C2_gate_order aliceFields fetchBadLink true stEmpty).2.1 rfl rfl
  · exact (C2_gate_order aliceFields fetchAlice true stBlocked).2.2.1 "alice".data "9".data
      rfl rfl (by decide) rfl (by decide) (by decide)
  · exact (C2_gate_order aliceFields fetchAlice true stNoAllow).2.2.2.1 "alice".data "9".data
      rfl rfl (by decide) rfl (by decide) (by decide) (by decide)
  · exact (C2_gate_order aliceFields fetchAlice true stEmpty).2.2.2.2 "alice".data "9".data
      rfl rfl (by decide) rfl (by decide) (by decide) (by decide)

/-- C3 counterexample: with the key 9|alice pre-recorded in the loaded ledger
and alice absent from the allow-list, the decision on the alice event is
Reject(AlreadyProcessed), not Reject(AccountNotAllowed): the claim that the
allow-list rejection holds regardless of dedup state is false, because the
dedup check runs first. -/
theorem C3_counterexample :
    process_token (Json.obj aliceFields) fetchAlice true stC3
      = (stC3, Decision.alreadyProcessed, []) ∧
    "alice".data ∉ stC3.allowed_accounts ∧
    Decision.alreadyProcessed ≠ Decision.notAllowed := by
  exact ⟨rfl, by decide, by decide⟩

/-- C3 (amended): for an extracted account absent from the allow-list the
decision is Reject(AccountNotAllowed) whenever the event's DedupKey is not yet
in the dedup ledger; when the key is already present, the dedup rejection
Reject(AlreadyProcessed) takes precedence. -/
theorem C3_allow_list_gate_amended (fields : List (String × Json)) (fetch : FetchResult)
    (w : Bool) (st : BotState) (a i : List Char)
    (h0 : (twitterLinkOf fields fetch).eqStr "Non disponible" = false)
    (ha : extract_account_name_j (twitterLinkOf fields fetch) = some a) (hane : a ≠ [])
    (hi : extract_tweet_id_j (twitterLinkOf fields fetch) = some i) (hine : i ≠ [])
    (hal : a ∉ st.allowed_accounts) :
    (dedupKey i a ∉ st.tweet_blacklist →
      process_token (Json.obj fields) fetch w st = (st, Decision.notAllowed, [])) ∧
    (dedupKey i a ∈ st.tweet_blacklist →
      process_token (Json.obj fields) fetch w st = (st, Decision.alreadyProcessed, [])) := by
  constructor
  · intro hbl
    exact gate_notAllowed fields fetch w st a i h0 ha hane hi hine hbl hal
  · intro hbl
    exact gate_already fields fetch w st a i h0 ha hane hi hine hbl

theorem C3_witness :
    process_token (Json.obj aliceFields) fetchAlice true stNoAllow
      = (stNoAllow, Decision.notAllowed, []) ∧
    process_token (Json.obj aliceFields) fetchAlice true stC3
      = (stC3, Decision.alreadyProcessed, []) := by
  have h := C3_allow_list_gate_amended aliceFields fetchAlice true stNoAllow
    "alice".data "9".data rfl rfl (by decide) rfl (by decide) (by decide)
  have h2 := C3_allow_list_gate_amended aliceFields fetchAlice true stC3
    "alice".data "9".data rfl rfl (by decide) rfl (by decide) (by decide)
  exact ⟨h.1 (by decide), h2.2 (by decide)⟩

/-- C4: for an accepted event with a successful file write, the effect trace
is exactly one ledger append of message_id|account followed by the single sink
dispatch (the commit happens strictly before the sink call), and the ledger
file and in-memory list each gain exactly that one line; moreover a ledger
append ever occurs only on the accept path, with exactly the accepted key, so
the commit happens strictly after the Accept decision. -/
theorem C4_accept_side_effects :
    (∀ (fields : List (String × Json)) (fetch : FetchResult) (st st1 : BotState)
        (a i : List Char) (effs : List Effect),
      process_token (Json.obj fields) fetch true st = (st1, Decision.accept a i, effs) →
      effs = [Effect.ledgerAppend (dedupKey i a),
        Effect.sinkSend (twitterLinkOf fields fetch) a] ∧
      st1.ledgerFile = st.ledgerFile ++ [dedupKey i a] ∧
      st1.tweet_blacklist = st.tweet_blacklist ++ [dedupKey i a]) ∧
    (∀ (token : Json) (fetch : FetchResult) (w : Bool) (st : BotState) (line : List Char),
      Effect.ledgerAppend line ∈ (process_token token fetch w st).2.2 →
      ∃ a i, (process_token token fetch w st).2.1 = Decision.accept a i ∧
        line = dedupKey i a) := by
  constructor
  · intro fields fetch st st1 a i effs h
    obtain ⟨-, -, -, -, -, -, -, hst, heff⟩ :=
      gate_accept_inversion fields fetch true st st1 a i effs h
    refine ⟨?_, ?_, ?_⟩
    · rw [heff]; simp [save_to_blacklist]
    · rw [hst]; simp [save_to_blacklist]
    · rw [hst]; simp [save_to_blacklist]
  · exact process_token_append_inv

theorem C4_witness :
    (process_token (Json.obj aliceFields) fetchAlice true stEmpty).2.2
      = [Effect.ledgerAppend (dedupKey "9".data "alice".data),
          Effect.sinkSend (twitterLinkOf aliceFields fetchAlice) "alice".data] ∧
    stAfter.ledgerFile = stEmpty.ledgerFile ++ [dedupKey "9".data "alice".data] ∧
    (∃ a i, (process_token (Json.obj aliceFields) fetchAlice true stEmpty).2.1
        = Decision.accept a i ∧ "9|alice".data = dedupKey i a) := by
  have h := C4_accept_side_effects.1 aliceFields fetchAlice stEmpty stAfter
    "alice".data "9".data
    [Effect.ledgerAppend "9|alice".data,
      Effect.sinkSend (Json.str "https://x.com/alice/status/9") "alice".data] rfl
  refine ⟨h.1, h.2.1, ?_⟩
  exact C4_accept_side_effects.2 (Json.obj aliceFields) fetchAlice true stEmpty
    "9|alice".data (List.mem_cons_self _ _)

/-- C10: when the ledger file append fails, save_to_blacklist swallows the
error and leaves both the file and the in-memory ledger unchanged, yet
process_token still dispatches the sink notification for the accepted event;
re-processing the same frame later (now with a working ledger) accepts and
notifies it a second time. -/
theorem C10_commit_gap :
    (∀ (fields : List (String × Json)) (fetch : FetchResult) (st st1 : BotState)
        (a i : List Char) (effs : List Effect),
      process_token (Json.obj fields) fetch false st = (st1, Decision.accept a i, effs) →
      st1 = st ∧ effs = [Effect.sinkSend (twitterLinkOf fields fetch) a]) ∧
    (∀ (fields : List (String × Json)) (fetch : FetchResult) (st st1 : BotState)
        (a i : List Char) (effs : List Effect),
      process_token (Json.obj fields) fetch false st = (st1, Decision.accept a i, effs) →
      process_token (Json.obj fields) fetch true st1 =
        ((save_to_blacklist true i a st1).1, Decision.accept a i,
          [Effect.ledgerAppend (dedupKey i a),
            Effect.sinkSend (twitterLinkOf fields fetch) a])) := by
  constructor
  · intro fields fetch st st1 a i effs h
    obtain ⟨-, -, -, -, -, -, -, hst, heff⟩ :=
      gate_accept_inversion fields fetch false st st1 a i effs h
    constructor
    · rw [hst]; simp [save_to_blacklist]
    · rw [heff]; simp [save_to_blacklist]
  · intro fields fetch st st1 a i effs h
    obtain ⟨h0, ha, hane, hi, hine, hbl, hal, hst, -⟩ :=
      gate_accept_inversion fields fetch false st st1 a i effs h
    have hst1 : st1 = st := by rw [hst]; simp [save_to_blacklist]
    subst hst1
    exact gate_accept fields fetch true st1 a i h0 ha hane hi hine hbl hal

theorem C10_witness :
    (process_token (Json.obj aliceFields) fetchAlice false stEmpty).1 = stEmpty ∧
    process_token (Json.obj aliceFields) fetchAlice true stEmpty
      = ((save_to_blacklist true "9".data "alice".data stEmpty).1,
          Decision.accept "alice".data "9".data,
          [Effect.ledgerAppend (dedupKey "9".data "alice".data),
            Effect.sinkSend (twitterLinkOf aliceFields fetchAlice) "alice".data]) := by
  have h1 := C10_commit_gap.1 aliceFields fetchAlice stEmpty stEmpty
    "alice".data "9".data
    [Effect.sinkSend (Json.str "https://x.com/alice/status/9") "alice".data] rfl
  have h2 := C10_commit_gap.2 aliceFields fetchAlice stEmpty stEmpty
    "alice".data "9".data
    [Effect.sinkSend (Json.str "https://x.com/alice/status/9") "alice".data] rfl
  exact ⟨h1.1, h2⟩

/-! The metadata resolver. -/

/-- C6: get_token_links is fail-safe: a falsy (absent) URI yields the
all-unavailable bundle immediately with no network request; on a present URI a
timeout, a transport error, a non-200 status, or a body that fails to decode
each yield the all-unavailable bundle. The resolver is a total function, so no
failure escapes it. -/
theorem C6_resolver_fail_safe :
    (∀ (u : Json) (fetch : FetchResult), jsonFalsy u = true →
      get_token_links u fetch = (defaultLinks, false)) ∧
    (∀ u : Json, (get_token_links u FetchResult.timeout).1 = defaultLinks) ∧
    (∀ u : Json, (get_token_links u FetchResult.transportError).1 = defaultLinks) ∧
    (∀ (u : Json) (status : Nat) (body : Except Unit Json), status ≠ 200 →
      (get_token_links u (FetchResult.response status body)).1 = defaultLinks) ∧
    (∀ (u : Json) (e : Unit),
      (get_token_links u (FetchResult.response 200 (Except.error e))).1 = defaultLinks) := by
  refine ⟨?_, ?_, ?_, ?_, ?_⟩
  · intro u fetch h
    simp [get_token_links, h]
  · intro u
    simp only [get_token_links]
    split
    · rfl
    · cases u <;> rfl
  · intro u
    simp only [get_token_links]
    split
    · rfl
    · cases u <;> rfl
  · intro u status body h
    simp only [get_token_links]
    split
    · rfl
    · cases u <;> simp [h]
  · intro u e
    simp only [get_token_links]
    split
    · rfl
    · cases u <;> rfl

theorem C6_witness :
    get_token_links (Json.str "") FetchResult.timeout = (defaultLinks, false) ∧
    (get_token_links (Json.str "https://m")
      (FetchResult.response 500 (Except.ok Json.null))).1 = defaultLinks := by
  exact ⟨C6_resolver_fail_safe.1 (Json.str "") FetchResult.timeout rfl,
    C6_resolver_fail_safe.2.2.2.1 (Json.str "https://m") 500 (Except.ok Json.null) (by decide)⟩

theorem except_bind_ok {α β : Type} (a : α) (f : α → Except Unit β) :
    (Except.ok a >>= f : Except Unit β) = f a := rfl

theorem except_bind_err {α β : Type} (e : Unit) (f : α → Except Unit β) :
    ((Except.error e : Except Unit α) >>= f) = Except.error e := rfl

theorem except_pure {α : Type} (a : α) : (pure a : Except Unit α) = Except.ok a := rfl

/-- C7: on a 200 response with a decoded object body of the stated shape
(properties absent, or an object whose links key is absent or an object), the
bundle built by get_token_links populates each field by consulting
properties.links first and then the top-level key pair, where a later source
overrides the earlier value only for keys actually present and absent keys
leave the earlier value (or the unavailable default) unchanged — exactly the
spec-side specResolveField. -/
theorem C7_resolver_population_order (fs : List (String × Json))
    (hshape : lookupField fs "properties" = none ∨
      ∃ pfs, lookupField fs "properties" = some (Json.obj pfs) ∧
        (lookupField pfs "links" = none ∨
          ∃ lfs, lookupField pfs "links" = some (Json.obj lfs))) :
    buildLinks (Json.obj fs) = Except.ok
      (LinkBundle.mk
        (specResolveField (Json.obj fs) "twitter" "twitter" "twitter_link")
        (specResolveField (Json.obj fs) "website" "website" "website_link")
        (specResolveField (Json.obj fs) "telegram" "telegram" "telegram_link")) := by
  rcases hshape with hp | ⟨pfs, hp, hl | ⟨lfs, hl⟩⟩
  · simp [buildLinks, pyContains, pyIndexStr, pyGetD, specResolveField, nestedLinksObj, hp,
      except_bind_ok, except_bind_err, except_pure, defaultLinks]
  · simp [buildLinks, pyContains, pyIndexStr, pyGetD, specResolveField, nestedLinksObj, hp, hl,
      except_bind_ok, except_bind_err, except_pure, defaultLinks]
  · simp [buildLinks, pyContains, pyIndexStr, pyGetD, specResolveField, nestedLinksObj, hp, hl,
      except_bind_ok, except_bind_err, except_pure, defaultLinks]

theorem C7_witness :
    buildLinks (Json.obj mdFields)
      = Except.ok (LinkBundle.mk (Json.str "tw") (Json.str "wl") unavailable) := by
  have h := C7_resolver_population_order mdFields
    (Or.inr ⟨[("links", Json.obj [("twitter", Json.str "tw")])], rfl,
      Or.inr ⟨[("twitter", Json.str "tw")], rfl⟩⟩)
  exact h.trans (by rfl)

/-! The event classifier: per-guard evaluation lemmas, then the coverage
claim. -/

theorem stage4_obj (fs : List (String × Json)) (h : condCreate fs = false) :
    classifyStage4 (Json.obj fs) = Except.ok none := by
  cases hmt : lookupField fs "mint" with
  | none => simp [classifyStage4, pyContains, hmt, except_bind_ok, except_pure]
  | some v =>
    cases hx : lookupField fs "txType" with
    | none => simp [classifyStage4, pyContains, hmt, hx, except_bind_ok, except_pure]
    | some w =>
      simp only [condCreate, hmt, hx, Option.isSome_some, Bool.true_and] at h
      simp [classifyStage4, pyContains, pyIndexStr, hmt, hx, h,
        except_bind_ok, except_pure]

theorem stage3_obj (fs : List (String × Json)) (h : condEvent fs = false) :
    classifyStage3 (Json.obj fs) = classifyStage4 (Json.obj fs) := by
  cases he : lookupField fs "event" with
  | none => simp [classifyStage3, pyContains, he, except_bind_ok, except_pure]
  | some v =>
    simp only [condEvent, he] at h
    simp [classifyStage3, pyContains, pyIndexStr, he, h, except_bind_ok, except_pure]

theorem stage2_obj (fs : List (String × Json)) (h : condType fs = false) :
    classifyStage2 (Json.obj fs) = classifyStage3 (Json.obj fs) := by
  cases ht : lookupField fs "type" with
  | none => simp [classifyStage2, pyContains, ht, except_bind_ok, except_pure]
  | some v =>
    simp only [condType, ht] at h
    simp [classifyStage2, pyContains, pyIndexStr, ht, h, except_bind_ok, except_pure]

theorem classifyE_obj (fs : List (String × Json)) (h : condMethod fs = false) :
    classifyE (Json.obj fs) = classifyStage2 (Json.obj fs) := by
  cases hm : lookupField fs "method" with
  | none => simp [classifyE, pyContains, hm, except_bind_ok, except_pure]
  | some v =>
    simp only [condMethod, hm] at h
    simp [classifyE, pyContains, pyIndexStr, hm, h, except_bind_ok, except_pure]

theorem stage4_str (s : String) :
    classifyStage4 (Json.str s) = Except.ok none ∨
    classifyStage4 (Json.str s) = Except.error () := by
  cases h1 : containsSeq "mint".data s.data
  · exact Or.inl (by simp [classifyStage4, pyContains, h1, except_bind_ok, except_pure])
  · cases h2 : containsSeq "txType".data s.data
    · exact Or.inl (by simp [classifyStage4, pyContains, h1, h2, except_bind_ok, except_pure])
    · exact Or.inr (by simp [classifyStage4, pyContains, pyIndexStr, h1, h2,
        except_bind_ok, except_bind_err, except_pure])

theorem stage3_str (s : String) :
    classifyStage3 (Json.str s) = classifyStage4 (Json.str s) ∨
    classifyStage3 (Json.str s) = Except.error () := by
  cases h : containsSeq "event".data s.data
  · exact Or.inl (by simp [classifyStage3, pyContains, h, except_bind_ok, except_pure])
  · exact Or.inr (by simp [classifyStage3, pyContains, pyIndexStr, h,
      except_bind_ok, except_bind_err, except_pure])

theorem stage2_str (s : String) :
    classifyStage2 (Json.str s) = classifyStage3 (Json.str s) ∨
    classifyStage2 (Json.str s) = Except.error () := by
  cases h : containsSeq "type".data s.data
  · exact Or.inl (by simp [classifyStage2, pyContains, h, except_bind_ok, except_pure])
  · exact Or.inr (by simp [classifyStage2, pyContains, pyIndexStr, h,
      except_bind_ok, except_bind_err, except_pure])

theorem classifyE_str (s : String) :
    classifyE (Json.str s) = classifyStage2 (Json.str s) ∨
    classifyE (Json.str s) = Except.error () := by
  cases h : containsSeq "method".data s.data
  · exact Or.inl (by simp [classifyE, pyContains, h, except_bind_ok, except_pure])
  · exact Or.inr (by simp [classifyE, pyContains, pyIndexStr, h,
      except_bind_ok, except_bind_err, except_pure])

theorem classify_str_none (s : String) : classify (Json.str s) = none := by
  rcases classifyE_str s with h1 | h1
  · rcases stage2_str s with h2 | h2
    · rcases stage3_str s with h3 | h3
      · rcases stage4_str s with h4 | h4
        · simp [classify, h1, h2, h3, h4]
        · simp [classify, h1, h2, h3, h4]
      · simp [classify, h1, h2, h3]
    · simp [classify, h1, h2]
  · simp [classify, h1]

theorem stage4_arr (xs : List Json) :
    classifyStage4 (Json.arr xs) = Except.ok none ∨
    classifyStage4 (Json.arr xs) = Except.error () := by
  cases h1 : xs.any (fun j => j.eqStr "mint")
  · exact Or.inl (by simp [classifyStage4, pyContains, h1, except_bind_ok, except_pure])
  · cases h2 : xs.any (fun j => j.eqStr "txType")
    · exact Or.inl (by simp [classifyStage4, pyContains, h1, h2, except_bind_ok, except_pure])
    · exact Or.inr (by simp [classifyStage4, pyContains, pyIndexStr, h1, h2,
        except_bind_ok, except_bind_err, except_pure])

theorem stage3_arr (xs : List Json) :
    classifyStage3 (Json.arr xs) = classifyStage4 (Json.arr xs) ∨
    classifyStage3 (Json.arr xs) = Except.error () := by
  cases h : xs.any (fun j => j.eqStr "event")
  · exact Or.inl (by simp [classifyStage3, pyContains, h, except_bind_ok, except_pure])
  · exact Or.inr (by simp [classifyStage3, pyContains, pyIndexStr, h,
      except_bind_ok, except_bind_err, except_pure])

theorem stage2_arr (xs : List Json) :
    classifyStage2 (Json.arr xs) = classifyStage3 (Json.arr xs) ∨
    classifyStage2 (Json.arr xs) = Except.error () := by
  cases h : xs.any (fun j => j.eqStr "type")
  · exact Or.inl (by simp [classifyStage2, pyContains, h, except_bind_ok, except_pure])
  · exact Or.inr (by simp [classifyStage2, pyContains, pyIndexStr, h,
      except_bind_ok, except_bind_err, except_pure])

theorem classifyE_arr (xs : List Json) :
    classifyE (Json.arr xs) = classifyStage2 (Json.arr xs) ∨
    classifyE (Json.arr xs) = Except.error () := by
  cases h : xs.any (fun j => j.eqStr "method")
  · exact Or.inl (by simp [classifyE, pyContains, h, except_bind_ok, except_pure])
  · exact Or.inr (by simp [classifyE, pyContains, pyIndexStr, h,
      except_bind_ok, except_bind_err, except_pure])

theorem classify_arr_none (xs : List Json) : classify (Json.arr xs) = none := by
  rcases classifyE_arr xs with h1 | h1
  · rcases stage2_arr xs with h2 | h2
    · rcases stage3_arr xs with h3 | h3
      · rcases stage4_arr xs with h4 | h4
        · simp [classify, h1, h2, h3, h4]
        · simp [classify, h1, h2, h3, h4]
      · simp [classify, h1, h2, h3]
    · simp [classify, h1, h2]
  · simp [classify, h1]

/-- C5: each of the four recognized wire shapes carrying a metadata URI u is
classified to a payload whose normalized event has metadata_uri = u (the same
normalized event for all four); a dict frame satisfying none of the four
guards, and any non-dict frame, is classified to none; and an unclassified
frame is dropped by the message handler without processing or state change. -/
theorem C5_classifier_coverage :
    (∀ u : Json, classify (shapeMethod u) = some (Json.obj [("uri", u)]) ∧
      tokenURI (Json.obj [("uri", u)]) = some u) ∧
    (∀ u : Json, classify (shapeType u) = some (shapeType u) ∧
      tokenURI (shapeType u) = some u) ∧
    (∀ u : Json, classify (shapeEvent u) = some (Json.obj [("uri", u)])) ∧
    (∀ m u : Json, classify (shapeCreate m u) = some (shapeCreate m u) ∧
      tokenURI (shapeCreate m u) = some u) ∧
    (∀ fs : List (String × Json), condMethod fs = false → condType fs = false →
      condEvent fs = false → condCreate fs = false → classify (Json.obj fs) = none) ∧
    classify Json.null = none ∧
    (∀ b, classify (Json.bool b) = none) ∧
    (∀ n, classify (Json.num n) = none) ∧
    (∀ s, classify (Json.str s) = none) ∧
    (∀ xs, classify (Json.arr xs) = none) ∧
    (∀ (data : Json) (fetch : FetchResult) (w : Bool) (st : BotState),
      classify data = none → handleMessage data fetch w st = (st, none)) := by
  refine ⟨fun u => ⟨rfl, rfl⟩, fun u => ⟨rfl, rfl⟩, fun u => rfl, fun m u => ⟨rfl, rfl⟩,
    ?_, rfl, fun b => rfl, fun n => rfl, classify_str_none, classify_arr_none, ?_⟩
  · intro fs h1 h2 h3 h4
    simp [classify, classifyE_obj fs h1, stage2_obj fs h2, stage3_obj fs h3, stage4_obj fs h4]
  · intro data fetch w st h
    simp [handleMessage, h]

theorem C5_witness :
    classify (shapeMethod (Json.str "u")) = some (Json.obj [("uri", Json.str "u")]) ∧
    classify (shapeType (Json.str "u")) = some (shapeType (Json.str "u")) ∧
    classify (shapeEvent (Json.str "u")) = some (Json.obj [("uri", Json.str "u")]) ∧
    classify (shapeCreate (Json.str "So1") (Json.str "u"))
      = some (shapeCreate (Json.str "So1") (Json.str "u")) ∧
    tokenURI (Json.obj [("uri", Json.str "u")]) = some (Json.str "u") ∧
    classify (Json.obj [("other", Json.str "x")]) = none ∧
    handleMessage (Json.str "ping") fetchAlice true stEmpty = (stEmpty, none) := by
  refine ⟨(C5_classifier_coverage.1 (Json.str "u")).1,
    (C5_classifier_coverage.2.1 (Json.str "u")).1,
    C5_classifier_coverage.2.2.1 (Json.str "u"),
    (C5_classifier_coverage.2.2.2.1 (Json.str "So1") (Json.str "u")).1,
    (C5_classifier_coverage.1 (Json.str "u")).2,
    C5_classifier_coverage.2.2.2.2.1 [("other", Json.str "x")] rfl rfl rfl rfl,
    C5_classifier_coverage.2.2.2.2.2.2.2.2.2.2 (Json.str "ping") fetchAlice true stEmpty
      (C5_classifier_coverage.2.2.2.2.2.2.2.2.1 "ping")⟩

end TweetCatcher
